import Mathlib

/-!
Shallow embedding of the request-validation middleware of
`osprey-method-handler` (`osprey-method-handler.js`, and the revision kept
as `src/unnamed/part_003`), together with proofs about the behaviours the
specification describes.

External collaborators (the `negotiator`, `type-is`, `ajv`, `busboy`,
`raml-sanitize` and `raml-validate` npm packages) are either passed in as
function parameters or, where the specification itself describes them as
core components (the Sanitizer of §4.1 and the Validator of §4.2), modelled
from the spec; every such definition says so in its doc comment.
-/

namespace Osprey

/-- The attribute attached to a raml-validate style error (`attr` field):
either a number (for example a `minProperties` bound), a boolean
(for example `additionalProperties`), a string, or JS `undefined`. -/
inductive Attr where
  | num (n : Nat)
  | bool (b : Bool)
  | str (s : String)
  | undef
  deriving DecidableEq

/-- JS string rendering of an `Attr`, as it appears interpolated into the
`invalid <type> (<rule>, <attr>)` messages built by `formatRamlErrors`. -/
def Attr.render : Attr → String
  | .num n => toString n
  | .bool b => cond b "true" "false"
  | .str s => s
  | .undef => "undefined"

/-- A raw raml-validate style error record `{valid: false, rule, key,
value, attr}` as produced by the validation rules and by the inline
`repeat` / `required` records in `formDataBodyHandler`. -/
structure RawRamlError where
  rule : String
  key : Option String
  value : Option String
  attr : Attr
  deriving DecidableEq

/-- A formatted Validation Error, the output shape of `formatRamlErrors`:
`{type, dataPath, keyword, schema, data, message}`. -/
structure ValidationErr where
  etype : String
  dataPath : Option String
  keyword : String
  schema : Attr
  data : Option String
  message : String
  deriving DecidableEq

/-- `formatRamlErrors(errors, type)`: map raw raml errors into the standard
Validation Error shape, building the human readable message. -/
def formatRamlErrors (errors : List RawRamlError) (t : String) : List ValidationErr :=
  errors.map fun e =>
    { etype := t
      dataPath := e.key
      keyword := e.rule
      schema := e.attr
      data := e.value
      message := "invalid " ++ t ++ " (" ++ e.rule ++ ", " ++ e.attr.render ++ ")" }

/-- The structured error handed to `next(...)`: an `http-errors` object
plus the `requestErrors` / `ramlValidation` fields this library attaches. -/
structure HttpError where
  status : Nat
  message : String
  ramlValidation : Bool
  requestErrors : List ValidationErr
  deriving DecidableEq

/-- `createValidationError(errors)`: a 400 error carrying the full ordered
list of Validation Errors and the `ramlValidation` marker. -/
def createValidationError (errors : List ValidationErr) : HttpError :=
  { status := 400
    message := "Request failed to validate against RAML definition"
    ramlValidation := true
    requestErrors := errors }

/-- `createError(status, message)` from the `http-errors` package, as used
for the 406 and 415 rejections (no `requestErrors` attached). -/
def createError (status : Nat) (message : String) : HttpError :=
  { status := status, message := message, ramlValidation := false, requestErrors := [] }

/-- Sequential execution of a list of connect-style middlewares by
`compose-middleware`: each handler either passes (calls `next()`) or
terminates the whole chain at once with an error (calls `next(err)`;
none of the handlers in this file is an error-handling middleware, so the
remaining handlers are skipped and the error reaches the final callback). -/
def composeRun {α : Type} (handlers : List (α → Except HttpError Unit)) (req : α) :
    Except HttpError Unit :=
  match handlers with
  | [] => .ok ()
  | h :: rest =>
    match h req with
    | .error e => .error e
    | .ok () => composeRun rest req

/-- Association list lookup (JS object property access `obj[key]`). -/
def lookupAssoc {α : Type} : List (String × α) → String → Option α
  | [], _ => none
  | (k, v) :: rest, key => if k = key then some v else lookupAssoc rest key

/-- JS object property update `obj[key] = value`: replaces the value in
place when the key exists (keeping the key's insertion position) and
appends the key otherwise. -/
def insertReplace {α : Type} : List (String × α) → String → α → List (String × α)
  | [], key, v => [(key, v)]
  | (k, v') :: rest, key, v =>
    if k = key then (key, v) :: rest else (k, v') :: insertReplace rest key v

/-- `JSON.stringify` of a media-type or similar plain string: wrap in
double quotes, escaping embedded quotes and backslashes. -/
def jsonQuote (s : String) : String :=
  ⟨'"' :: (s.data.foldr (fun c acc =>
    (if c = '"' ∨ c = '\\' then ['\\', c] else [c]) ++ acc) ['"'])⟩

/-- `array.join(', ')` as used for the `expected ...` error messages. -/
def joinComma : List String → String
  | [] => ""
  | [x] => x
  | x :: y :: rest => x ++ ", " ++ joinComma (y :: rest)

/-- `a` occurs as a contiguous substring of `b`. -/
def strIncl (a b : String) : Prop := a.data <:+: b.data

/- ### JSON body handling: RAML-type root constraints (claim C1) -/

/-- A parsed JSON object body (`req.body`): ordered field/value pairs. -/
abbrev JsonObject := List (String × String)

/-- The report returned by a compiled `raml-validate` validator:
`{valid, errors}`. -/
structure RamlResult where
  valid : Bool
  errors : List RawRamlError
  deriving DecidableEq

/-- The `ospreyJsonBody` middleware produced by `jsonBodyValidationHandler`
for a RAML data type: run the compiled primary validator over `req.body`
and fail with the formatted error list when the report is invalid. -/
def ospreyJsonBody (validate : JsonObject → RamlResult) (body : JsonObject) :
    Except HttpError Unit :=
  let result := validate body
  if result.valid then .ok ()
  else .error (createValidationError (formatRamlErrors result.errors "json"))

/-- The anonymous `minProperties` middleware pushed by `jsonBodyHandler`:
fail when the body has fewer properties than the bound. -/
def minPropertiesValidator (minProperties : Nat) (body : JsonObject) :
    Except HttpError Unit :=
  if (body.map Prod.fst).length < minProperties then
    .error (createValidationError (formatRamlErrors
      [{ rule := "minProperties", key := none, value := none,
         attr := .num minProperties }] "json"))
  else .ok ()

/-- The anonymous `maxProperties` middleware pushed by `jsonBodyHandler`:
fail when the body has more properties than the bound. -/
def maxPropertiesValidator (maxProperties : Nat) (body : JsonObject) :
    Except HttpError Unit :=
  if maxProperties < (body.map Prod.fst).length then
    .error (createValidationError (formatRamlErrors
      [{ rule := "maxProperties", key := none, value := none,
         attr := .num maxProperties }] "json"))
  else .ok ()

/-- The anonymous `additionalProperties` middleware pushed by
`jsonBodyHandler` when `additionalProperties` is false: fail when some body
key is not a declared schema property. -/
def additionalPropertiesValidator (schemaKeys : List String) (body : JsonObject) :
    Except HttpError Unit :=
  if (body.map Prod.fst).any (fun k => !schemaKeys.contains k) then
    .error (createValidationError (formatRamlErrors
      [{ rule := "additionalProperties", key := none, value := none,
         attr := .bool false }] "json"))
  else .ok ()

/-- The middleware list built by `jsonBodyHandler` for a RAML data type
(after the body parser): the primary `jsonBodyValidationHandler` pass,
then the conditional `minProperties`, `maxProperties` and
`additionalProperties` passes, exactly in that push order. -/
def jsonBodyRamlMiddleware (validate : JsonObject → RamlResult)
    (minProperties maxProperties : Nat) (additionalProperties : Bool)
    (schemaKeys : List String) : List (JsonObject → Except HttpError Unit) :=
  [ospreyJsonBody validate]
    ++ (if 0 < minProperties then [minPropertiesValidator minProperties] else [])
    ++ (if 0 < maxProperties then [maxPropertiesValidator maxProperties] else [])
    ++ (if additionalProperties = false then
          [additionalPropertiesValidator schemaKeys] else [])

/-- `compose(middleware)` applied to a request body: the composed JSON body
pipeline of `jsonBodyHandler` for a RAML data type. -/
def runJsonBodyRaml (validate : JsonObject → RamlResult)
    (minProperties maxProperties : Nat) (additionalProperties : Bool)
    (schemaKeys : List String) (body : JsonObject) : Except HttpError Unit :=
  composeRun
    (jsonBodyRamlMiddleware validate minProperties maxProperties
      additionalProperties schemaKeys) body

/-- Fail-fast reading of the same pipeline, written out as a single nested
conditional: primary validation first, and the root-level constraint passes
only run when every earlier pass succeeded. Used to state the corrected
form of the claim about root-level RAML constraints. -/
def jsonBodyRamlFailFast (validate : JsonObject → RamlResult)
    (minProperties maxProperties : Nat) (additionalProperties : Bool)
    (schemaKeys : List String) (body : JsonObject) : Except HttpError Unit :=
  let result := validate body
  if result.valid then
    if 0 < minProperties ∧ (body.map Prod.fst).length < minProperties then
      .error (createValidationError (formatRamlErrors
        [{ rule := "minProperties", key := none, value := none,
           attr := .num minProperties }] "json"))
    else if 0 < maxProperties ∧ maxProperties < (body.map Prod.fst).length then
      .error (createValidationError (formatRamlErrors
        [{ rule := "maxProperties", key := none, value := none,
           attr := .num maxProperties }] "json"))
    else if additionalProperties = false
        ∧ (body.map Prod.fst).any (fun k => !schemaKeys.contains k) = true then
      .error (createValidationError (formatRamlErrors
        [{ rule := "additionalProperties", key := none, value := none,
           attr := .bool false }] "json"))
    else .ok ()
  else .error (createValidationError (formatRamlErrors result.errors "json"))

/-- The keyword list of the error produced by a middleware run, empty when
the run succeeded. -/
def runKeywords (r : Except HttpError Unit) : List String :=
  match r with
  | .ok _ => []
  | .error e => e.requestErrors.map (·.keyword)

/-- Primary validator used in the concrete counterexample input: it always
reports one `required` error for the field `y`. -/
def cexPrimaryValidate : JsonObject → RamlResult := fun _ =>
  { valid := false
    errors := [{ rule := "required", key := some "y", value := none,
                 attr := .bool true }] }

/- ### Accept negotiation (claim C5) -/

/-- One declared response: its status code and the media types of its
declared body payloads. -/
structure RamlResponse where
  statusCode : Nat
  mediaTypes : List String
  deriving DecidableEq

/-- The `accepts` collection built by `acceptsHandler`: the body media
types of every 2xx response, deduplicated in first-insertion order
(JS object keys). -/
def collectAcceptTypes (responses : List RamlResponse) : List String :=
  (responses.filter (fun r => 200 ≤ r.statusCode ∧ r.statusCode < 300)).foldl
    (fun acc r => r.mediaTypes.foldl
      (fun acc t => if acc.contains t then acc else acc ++ [t]) acc) []

/-- The `expected ...` fragment of the negotiation error messages:
the quoted media types joined with commas, prefixed by `one of ` when
more than one type is declared. -/
def expectedMessage (types : List String) : String :=
  let validTypes := joinComma (types.map jsonQuote)
  if types.length = 1 then validTypes else "one of " ++ validTypes

/-- The 406 error produced by `ospreyAccepts` for an incompatible
`Accept` header. -/
def notAcceptableError (accept : String) (mediaTypes : List String) : HttpError :=
  createError 406
    ("Unsupported accept header \"" ++ accept ++ "\", expected "
      ++ expectedMessage mediaTypes)

/-- `acceptsHandler(responses, ...)`: collect the 2xx media types; when
none are declared return the empty middleware list (negotiation skipped),
otherwise return the single `ospreyAccepts` middleware, which consults the
`negotiator` package (passed here as the function `negotiate`) and rejects
with 406 when the request's `Accept` header matches no declared type. -/
def acceptsHandler (negotiate : String → List String → Bool)
    (responses : List RamlResponse) : List (String → Except HttpError Unit) :=
  let mediaTypes := collectAcceptTypes responses
  if mediaTypes.isEmpty then []
  else
    [fun accept =>
      if negotiate accept mediaTypes then .ok ()
      else .error (notAcceptableError accept mediaTypes)]

/- ### Content-Type dispatch (claim C6) -/

/-- The request fields consulted by the `ospreyContentType` middleware:
whether a body is present (`type-is`'s `hasBody`, from transfer-encoding /
content-length), the `Content-Type` header, and the method and URL used in
the no-body error message. -/
structure ContentTypeRequest where
  hasBody : Bool
  contentType : String
  method : String
  originalUrl : String
  deriving DecidableEq

/-- The 415 error produced by `ospreyContentType` when the `Content-Type`
header matches none of the declared body media types. -/
def unsupportedMediaTypeError (contentType : String) (types : List String) :
    HttpError :=
  createError 415
    ("Unsupported content-type header \"" ++ contentType ++ "\", expected "
      ++ expectedMessage types)

/-- The `ospreyContentType` middleware returned by `bodyHandler`. `typeIs`
stands for the `type-is` package's wildcard-aware matcher `is.is(ct,
types)` (returning the matched declared type, or nothing). On success it
returns the matched type, which selects the sub-pipeline from `bodyMap`. -/
def ospreyContentType (typeIs : String → List String → Option String)
    (types : List String) (req : ContentTypeRequest) : Except HttpError String :=
  if ¬ req.hasBody then
    .error (createError 415
      ("No body sent with request for " ++ req.method ++ " " ++ req.originalUrl
        ++ " with content-type \"" ++ req.contentType ++ "\""))
  else
    match typeIs req.contentType types with
    | none => .error (unsupportedMediaTypeError req.contentType types)
    | some t => .ok t

/- ### Streaming multipart form validation (claims C2, C3, C4, C10) -/

/-- One declared form parameter (RAML 0.8 `formParameters` entry): its
`required` flag and its `repeat` flag (the repeat check at the duplicate
guard reads the original declaration's flag). -/
structure FormParam where
  required : Bool
  rep : Bool
  deriving DecidableEq

/-- One incoming multipart part, as delivered to the overridden
`busboy.emit`: a `field` or `file` event carrying a part name and a value
(for files, the value stands for the part's stream). -/
structure Part where
  isFile : Bool
  name : String
  value : String
  deriving DecidableEq

/-- The Streaming Form Session: the per-request mutable state of
`ospreyMethodForm` — the `received` name set, the `errors` object (a JS
object, so an insertion-ordered map), the `errored` flag, and the events
actually forwarded to `Busboy.prototype.emit` (the application handler's
consumption path). -/
structure FormSession where
  received : List String
  errors : List (String × RawRamlError)
  errored : Bool
  forwarded : List Part
  deriving DecidableEq

/-- The fresh session created when `ospreyMethodForm` starts a request. -/
def initSession : FormSession :=
  { received := [], errors := [], errored := false, forwarded := [] }

/-- The inline `repeat` error record built at the duplicate guard:
`{valid: false, rule: 'repeat', value, key: name, attr: false}`. -/
def repeatError (name value : String) : RawRamlError :=
  { rule := "repeat", key := some name, value := some value, attr := .bool false }

/-- The inline `required` error record synthesized on `finish` for a
declared required field never received:
`{valid: false, rule: 'required', value: undefined, key, attr: true}`. -/
def requiredError (name : String) : RawRamlError :=
  { rule := "required", key := some name, value := none, attr := .bool true }

/-- One `field`/`file` event through the overridden `busboy.emit`.
`sanitize` stands for the per-name `ramlSanitize.rule` closures and
`validate` for the per-name `ramlValidate.rule` closures (`none` meaning
the value is valid, `some e` the rule's error record). Undeclared names
are silently discarded; a repeated non-repeatable name records a `repeat`
error and discards the value without aborting; otherwise the name is
marked received, the sanitized value validated, and the event is forwarded
only when no error has been recorded for the request so far. -/
def stepPart (params : List (String × FormParam))
    (sanitize : String → String → String)
    (validate : String → String → Option RawRamlError)
    (s : FormSession) (p : Part) : FormSession :=
  match lookupAssoc params p.name with
  | none => s
  | some decl =>
    let v := sanitize p.name p.value
    if p.name ∈ s.received ∧ decl.rep = false then
      { s with errors := insertReplace s.errors p.name (repeatError p.name v)
               errored := true }
    else
      let s1 := { s with received := p.name :: s.received }
      match validate p.name v with
      | some err =>
        { s1 with errors := insertReplace s1.errors p.name err, errored := true }
      | none =>
        if s1.errored then s1 else { s1 with forwarded := s1.forwarded ++ [p] }

/-- Process a stream of parts in arrival order. -/
def processParts (params : List (String × FormParam))
    (sanitize : String → String → String)
    (validate : String → String → Option RawRamlError)
    (events : List Part) (s : FormSession) : FormSession :=
  events.foldl (stepPart params sanitize validate) s

/-- The declared required fields never received, in declaration order. -/
def missingRequired (params : List (String × FormParam)) (s : FormSession) :
    List (String × FormParam) :=
  params.filter (fun kv => kv.2.required && decide (kv.1 ∉ s.received))

/-- The aggregated error list built on the final `finish` event: the
synthesized `required` errors, concatenated with the values of the
`errors` object (`.concat(values(errors))`). -/
def finishErrors (params : List (String × FormParam)) (s : FormSession) :
    List RawRamlError :=
  (missingRequired params s).map (fun kv => requiredError kv.1)
    ++ s.errors.map (·.2)

/-- A whole multipart session under the overridden `emit`: process every
part, then on the final `finish` either signal failure with the aggregated
error list or succeed with the forwarded events. -/
def runFormSession (params : List (String × FormParam))
    (sanitize : String → String → String)
    (validate : String → String → Option RawRamlError)
    (events : List Part) : Except HttpError (List Part) :=
  let s := processParts params sanitize validate events initSession
  let validationErrors := finishErrors params s
  if validationErrors.isEmpty then .ok s.forwarded
  else .error (createValidationError (formatRamlErrors validationErrors "form"))

/-- `formDataBodyHandler`: `busboy.emit` is overridden only when the body
declares `formParameters` (RAML 1.0 `properties`); `none` models the
absent/falsy declaration, in which case every event flows untouched
through the original `Busboy.prototype.emit`. -/
def formDataBodyHandler (params : Option (List (String × FormParam)))
    (sanitize : String → String → String)
    (validate : String → String → Option RawRamlError)
    (events : List Part) : Except HttpError (List Part) :=
  match params with
  | none => .ok events
  | some ps => runFormSession ps sanitize validate events

/- ### Query parameter handling (claim C7) -/

/-- A field's declared type tag. -/
inductive FType where
  | string
  | number
  | integer
  | boolean
  | date
  | file
  deriving DecidableEq

/-- A typed value after sanitization. -/
inductive Value where
  | str (s : String)
  | num (n : Int)
  | bool (b : Bool)
  deriving DecidableEq

/-- String rendering of a typed value, used for the `data` field of a
Validation Error. -/
def Value.render : Value → String
  | .str s => s
  | .num n => toString n
  | .bool b => cond b "true" "false"

/-- One Field Declaration: type tag and required flag. -/
structure FieldDecl where
  ftype : FType
  required : Bool
  deriving DecidableEq

/-- Modelled from the spec: §4.1 Sanitizer (the external `raml-sanitize`
package) — coerce one raw string per the declared type tag: strings pass
through, numbers/integers parse (left unchanged on parse failure, so the
Validator reports the mismatch), booleans map `"true"`/`"false"`, other
tags pass through. Pure; never throws. -/
def sanitizeValue (d : FieldDecl) (v : String) : Value :=
  match d.ftype with
  | .string => .str v
  | .number =>
    match v.toInt? with
    | some n => .num n
    | none => .str v
  | .integer =>
    match v.toInt? with
    | some n => .num n
    | none => .str v
  | .boolean =>
    if v = "true" then .bool true
    else if v = "false" then .bool false
    else .str v
  | .date => .str v
  | .file => .str v

/-- Modelled from the spec: §4.1 — the map-level sanitizer applies each
declared field's rule to that field's raw value and leaves undeclared
fields' values unchanged (pure per-field transform, no key is added or
removed). -/
def sanitizeQuery (decls : List (String × FieldDecl))
    (raw : List (String × String)) : List (String × Value) :=
  raw.map fun kv =>
    match lookupAssoc decls kv.1 with
    | some d => (kv.1, sanitizeValue d kv.2)
    | none => (kv.1, Value.str kv.2)

/-- The `definedQuery` filter of `ospreyQuery`: keep only the declared
parameter names (allow-list filtering). -/
def ospreyQueryFilter (decls : List (String × FieldDecl))
    (raw : List (String × String)) : List (String × Value) :=
  (sanitizeQuery decls raw).filter (fun kv => (lookupAssoc decls kv.1).isSome)

/-- Does a typed value satisfy a declared type tag? -/
def typeMatches (t : FType) (v : Value) : Bool :=
  match t, v with
  | .string, .str _ => true
  | .number, .num _ => true
  | .integer, .num _ => true
  | .boolean, .bool _ => true
  | .date, .str _ => true
  | .file, _ => false
  | _, _ => false

/-- Modelled from the spec: §4.2 Validator (the schema built by
`nodeShapeFromParams` and evaluated through `validateWithExtras`) — check
one declared field: a required absent field yields a `required` error, a
present field is checked for type compatibility and for the declaration's
remaining constraints (`extraRules`, standing for pattern / bounds / enum
checks, each yielding its keyword). Every error produced references the
declared field's name. -/
def checkField (extraRules : FieldDecl → Value → List String)
    (name : String) (d : FieldDecl) (v : Option Value) : List ValidationErr :=
  match v with
  | none =>
    if d.required then
      [{ etype := "query", dataPath := some name, keyword := "required",
         schema := .undef, data := none,
         message := "invalid query (required, " ++ name ++ ")" }]
    else []
  | some v =>
    (if ¬ typeMatches d.ftype v then
      [{ etype := "query", dataPath := some name, keyword := "type",
         schema := .undef, data := some v.render,
         message := "invalid query (type, " ++ name ++ ")" }]
    else [])
      ++ (extraRules d v).map (fun rule =>
        { etype := "query", dataPath := some name, keyword := rule,
          schema := .undef, data := some v.render,
          message := "invalid query (" ++ rule ++ ", " ++ name ++ ")" })

/-- Modelled from the spec: §4.2 — validate a typed value map against the
field declarations, in declaration order; undeclared fields present in the
input are ignored (allow-list), and all failures are collected. -/
def specValidate (extraRules : FieldDecl → Value → List String)
    (decls : List (String × FieldDecl)) (m : List (String × Value)) :
    List ValidationErr :=
  decls.foldr (fun kv acc => checkField extraRules kv.1 kv.2 (lookupAssoc m kv.1) ++ acc) []

/-- The `ospreyQuery` middleware (the revision that filters explicitly):
sanitize the parsed query, drop undeclared names, validate the filtered
map, and on success expose the filtered map as `req.query`
(`discardUnknownQueryParameters` enabled). -/
def ospreyQuery (extraRules : FieldDecl → Value → List String)
    (decls : List (String × FieldDecl)) (raw : List (String × String)) :
    Except HttpError (List (String × Value)) :=
  let query := ospreyQueryFilter decls raw
  let report := specValidate extraRules decls query
  if report.isEmpty then .ok query
  else .error (createValidationError report)

/- ### JSON-Schema compilation at route registration (claim C8) -/

/-- The schema preparation inside `jsonBodyValidationHandler`'s `try`
block, for a JSON-Schema document string: `JSON.parse` the string, apply
the draft-03 → draft-04 conversion when no custom ajv instance was given
and the `$schema` URI matches draft 3, then `ajv.compile`. `parseJson`,
`is03`, `convertV4` and `compile` stand for `JSON.parse`,
`JSON_SCHEMA_03.test`, `json-schema-compatibility.v4` and the ajv
compiler; an `Except.error` is a thrown exception's message. -/
def innerCompileJsonSchema {σ ν : Type} (parseJson : String → Except String σ)
    (useCustomAjv : Bool) (is03 : σ → Bool) (convertV4 : σ → σ)
    (compile : σ → Except String ν) (schemaStr : String) : Except String ν := do
  let s ← parseJson schemaStr
  let s := if useCustomAjv = false ∧ is03 s then convertV4 s else s
  compile s

/-- `jsonBodyValidationHandler` for a JSON-Schema document string: any
exception from parsing or compiling is re-raised at route-registration
time with the method and path prepended to its message. -/
def jsonBodyValidationHandlerCompile {σ ν : Type}
    (parseJson : String → Except String σ) (useCustomAjv : Bool)
    (is03 : σ → Bool) (convertV4 : σ → σ) (compile : σ → Except String ν)
    (schemaStr path method : String) : Except String ν :=
  match innerCompileJsonSchema parseJson useCustomAjv is03 convertV4 compile schemaStr with
  | .error msg =>
    .error ("Unable to compile JSON schema for " ++ method ++ " " ++ path
      ++ ": " ++ msg)
  | .ok v => .ok v

/-- `jsonBodyHandler` for a JSON-Schema body: the middleware list it
produces is the body parser followed by the validation middleware built
from the compiled validator; when compilation throws, the exception
propagates out of the handler builder and no middleware list is produced.
`parserMW` stands for the `body-parser` middleware and `mkMW` for the
`ospreyJsonBody` closure over the compiled validator. -/
def jsonBodyHandlerBuild {σ ν μ : Type} (parseJson : String → Except String σ)
    (useCustomAjv : Bool) (is03 : σ → Bool) (convertV4 : σ → σ)
    (compile : σ → Except String ν) (parserMW : μ) (mkMW : ν → μ)
    (schemaStr path method : String) : Except String (List μ) :=
  match jsonBodyValidationHandlerCompile parseJson useCustomAjv is03 convertV4
      compile schemaStr path method with
  | .error msg => .error msg
  | .ok v => .ok [parserMW, mkMW v]

/- ### Determinism of the compiled validator (claim C9) -/

/-- One ajv error object. -/
structure AjvError where
  keyword : String
  dataPath : Option String
  message : String
  data : Option String
  deriving DecidableEq

/-- The mutable state of an ajv instance that `validateWithExtras` touches:
the `errors` property, set by every `validate` call (`null` on success). -/
structure AjvState where
  errors : Option (List AjvError)
  deriving DecidableEq

/-- A Validation Report `{valid, errors}` as returned by
`validateWithExtras`. -/
structure AjvReport where
  valid : Bool
  errors : List AjvError
  deriving DecidableEq

/-- `ajv.validate(schema, value)`: the pure evaluation (`evalSchema`,
`none` meaning valid) plus its effect on the instance's `errors`
property, which is overwritten on every call. -/
def ajvValidateCall (evalSchema : String → String → Option (List AjvError))
    (schema value : String) (st : AjvState) : Bool × AjvState :=
  match evalSchema schema value with
  | none => (true, { st with errors := none })
  | some errs => (false, { st with errors := some errs })

/-- `validateWithExtras(schema, value)`: run the ajv validation and, when
invalid, read the instance's `errors` property back, defaulting each
error's `data` to the validated value. -/
def validateWithExtras (evalSchema : String → String → Option (List AjvError))
    (schema value : String) (st : AjvState) : AjvReport × AjvState :=
  let r := ajvValidateCall evalSchema schema value st
  if r.1 then ({ valid := true, errors := [] }, r.2)
  else
    ({ valid := false
       errors := (r.2.errors.getD []).map
         (fun e => { e with data := some (e.data.getD value) }) }, r.2)

/- ### Concrete inputs used by counterexamples and witnesses -/

/-- Concrete multipart declarations: a required field `a` and an optional
field `b`, neither repeatable. -/
def cFormParams : List (String × FormParam) :=
  [("a", { required := true, rep := false }),
   ("b", { required := false, rep := false })]

/-- Concrete sanitizer: identity on every field (string passthrough). -/
def cFormSan : String → String → String := fun _ v => v

/-- Concrete per-field validator: field `a` always valid, any other field
fails a `pattern` rule keyed by its own name. -/
def cFormVal : String → String → Option RawRamlError := fun nm v =>
  if nm = "a" then none
  else some { rule := "pattern", key := some nm, value := some v,
              attr := .str "[0-9]+" }

/-- Concrete multipart event stream: a single `b` field that fails its
pattern rule, while required field `a` never arrives. -/
def cFormEvents : List Part := [{ isFile := false, name := "b", value := "x" }]

/- ### Helper lemmas -/

theorem strIncl_refl (a : String) : strIncl a a := List.infix_rfl

theorem strIncl_append_right {a b : String} (c : String) (h : strIncl a b) :
    strIncl a (b ++ c) := by
  unfold strIncl at h ⊢
  rw [String.data_append]
  exact h.trans (List.prefix_append b.data c.data).isInfix

theorem strIncl_append_left {a c : String} (b : String) (h : strIncl a c) :
    strIncl a (b ++ c) := by
  unfold strIncl at h ⊢
  rw [String.data_append]
  exact h.trans (List.suffix_append b.data c.data).isInfix

theorem mem_strIncl_joinComma {t : String} {l : List String} (h : t ∈ l) :
    strIncl t (joinComma l) := by
  induction l with
  | nil => cases h
  | cons x rest ih =>
    cases rest with
    | nil =>
      rcases List.mem_singleton.mp h with rfl
      exact strIncl_refl t
    | cons y rest' =>
      rcases List.mem_cons.mp h with rfl | hmem
      · exact strIncl_append_right _ (strIncl_append_right ", " (strIncl_refl t))
      · exact strIncl_append_left _ (ih hmem)

theorem mem_strIncl_expectedMessage {t : String} {types : List String}
    (h : t ∈ types) : strIncl (jsonQuote t) (expectedMessage types) := by
  have hj : strIncl (jsonQuote t) (joinComma (types.map jsonQuote)) :=
    mem_strIncl_joinComma (List.mem_map_of_mem jsonQuote h)
  unfold expectedMessage
  by_cases hlen : types.length = 1
  · simpa [hlen] using hj
  · simpa [hlen] using strIncl_append_left _ hj

theorem composeRun_append {α : Type} (hs ks : List (α → Except HttpError Unit))
    (x : α) :
    composeRun (hs ++ ks) x =
      match composeRun hs x with
      | .error e => .error e
      | .ok () => composeRun ks x := by
  induction hs with
  | nil => simp [composeRun]
  | cons h rest ih =>
    simp only [List.cons_append, composeRun]
    cases h x with
    | error e => rfl
    | ok u => cases u; exact ih

/- ### Claim C1 -/

/-- C1 (counterexample): with a primary RAML-type validator that reports a
single `required` error, a root-level `minProperties` bound of 2 and the
empty JSON object body, the body violates both the primary schema and the
property-count constraint, yet the composed pipeline reports only the
primary `required` error: no `minProperties` Validation Error appears, so
the two passes are not independently contributing errors as claimed. -/
theorem jsonBodyRaml_not_both_reported :
    runKeywords (runJsonBodyRaml cexPrimaryValidate 2 0 true [] []) = ["required"]
    ∧ (([] : JsonObject).map Prod.fst).length < 2
    ∧ "minProperties" ∉
        runKeywords (runJsonBodyRaml cexPrimaryValidate 2 0 true [] []) := by
  refine ⟨rfl, by decide, by decide⟩

theorem composeRun_cons_ok {α : Type} {m : α → Except HttpError Unit}
    {rest : List (α → Except HttpError Unit)} {x : α} (h : m x = .ok ()) :
    composeRun (m :: rest) x = composeRun rest x := by
  simp [composeRun, h]

theorem composeRun_cons_error {α : Type} {m : α → Except HttpError Unit}
    {rest : List (α → Except HttpError Unit)} {x : α} {e : HttpError}
    (h : m x = .error e) : composeRun (m :: rest) x = .error e := by
  simp [composeRun, h]

theorem ospreyJsonBody_pass {validate : JsonObject → RamlResult} {body : JsonObject}
    (h : (validate body).valid = true) : ospreyJsonBody validate body = .ok () := by
  unfold ospreyJsonBody
  rw [if_pos h]

theorem ospreyJsonBody_fail {validate : JsonObject → RamlResult} {body : JsonObject}
    (h : ¬ (validate body).valid = true) :
    ospreyJsonBody validate body =
      .error (createValidationError (formatRamlErrors (validate body).errors "json")) := by
  unfold ospreyJsonBody
  rw [if_neg h]

theorem minPropertiesValidator_pass {minProperties : Nat} {body : JsonObject}
    (h : ¬ (body.map Prod.fst).length < minProperties) :
    minPropertiesValidator minProperties body = .ok () := by
  unfold minPropertiesValidator
  rw [if_neg h]

theorem maxPropertiesValidator_pass {maxProperties : Nat} {body : JsonObject}
    (h : ¬ maxProperties < (body.map Prod.fst).length) :
    maxPropertiesValidator maxProperties body = .ok () := by
  unfold maxPropertiesValidator
  rw [if_neg h]

theorem additionalPropertiesValidator_pass {schemaKeys : List String}
    {body : JsonObject}
    (h : ¬ (body.map Prod.fst).any (fun k => !schemaKeys.contains k) = true) :
    additionalPropertiesValidator schemaKeys body = .ok () := by
  unfold additionalPropertiesValidator
  rw [if_neg h]

/-- C1 (amended): the root-level `minProperties`, `maxProperties` and
`additionalProperties: false` constraints are evaluated as separate passes
pushed after the primary schema validation, but the composed middleware
chain short-circuits at the first pass that produces a Validation Error:
the whole pipeline is extensionally the fail-fast cascade
`jsonBodyRamlFailFast`, so a body that violates both the primary schema
and a property-count constraint reports only the primary schema's
errors. -/
theorem jsonBodyRaml_failFast (validate : JsonObject → RamlResult)
    (minProperties maxProperties : Nat) (additionalProperties : Bool)
    (schemaKeys : List String) (body : JsonObject) :
    runJsonBodyRaml validate minProperties maxProperties additionalProperties
        schemaKeys body =
      jsonBodyRamlFailFast validate minProperties maxProperties
        additionalProperties schemaKeys body := by
  have hlist : jsonBodyRamlMiddleware validate minProperties maxProperties
      additionalProperties schemaKeys =
      ospreyJsonBody validate ::
        ((if 0 < minProperties then [minPropertiesValidator minProperties] else [])
          ++ ((if 0 < maxProperties then [maxPropertiesValidator maxProperties] else [])
            ++ (if additionalProperties = false then
                  [additionalPropertiesValidator schemaKeys] else []))) := by
    unfold jsonBodyRamlMiddleware
    simp [List.append_assoc]
  unfold runJsonBodyRaml
  rw [hlist]
  unfold jsonBodyRamlFailFast
  by_cases hv : (validate body).valid = true
  · rw [composeRun_cons_ok (ospreyJsonBody_pass hv), if_pos hv]
    by_cases hminlt : 0 < minProperties ∧ (body.map Prod.fst).length < minProperties
    · rw [if_pos hminlt.1, if_pos hminlt, List.singleton_append]
      exact composeRun_cons_error (by unfold minPropertiesValidator; rw [if_pos hminlt.2])
    · have hA : composeRun
          ((if 0 < minProperties then [minPropertiesValidator minProperties] else [])
            ++ ((if 0 < maxProperties then [maxPropertiesValidator maxProperties] else [])
              ++ (if additionalProperties = false then
                    [additionalPropertiesValidator schemaKeys] else []))) body =
          composeRun
            ((if 0 < maxProperties then [maxPropertiesValidator maxProperties] else [])
              ++ (if additionalProperties = false then
                    [additionalPropertiesValidator schemaKeys] else [])) body := by
        by_cases hmin : 0 < minProperties
        · rw [if_pos hmin, List.singleton_append]
          exact composeRun_cons_ok
            (minPropertiesValidator_pass (fun hlt => hminlt ⟨hmin, hlt⟩))
        · rw [if_neg hmin, List.nil_append]
      rw [hA, if_neg hminlt]
      by_cases hmaxgt : 0 < maxProperties ∧ maxProperties < (body.map Prod.fst).length
      · rw [if_pos hmaxgt.1, if_pos hmaxgt, List.singleton_append]
        exact composeRun_cons_error
          (by unfold maxPropertiesValidator; rw [if_pos hmaxgt.2])
      · have hB : composeRun
            ((if 0 < maxProperties then [maxPropertiesValidator maxProperties] else [])
              ++ (if additionalProperties = false then
                    [additionalPropertiesValidator schemaKeys] else [])) body =
            composeRun
              (if additionalProperties = false then
                [additionalPropertiesValidator schemaKeys] else []) body := by
          by_cases hmax : 0 < maxProperties
          · rw [if_pos hmax, List.singleton_append]
            exact composeRun_cons_ok
              (maxPropertiesValidator_pass (fun hgt => hmaxgt ⟨hmax, hgt⟩))
          · rw [if_neg hmax, List.nil_append]
        rw [hB, if_neg hmaxgt]
        by_cases hfound : additionalProperties = false
            ∧ (body.map Prod.fst).any (fun k => !schemaKeys.contains k) = true
        · rw [if_pos hfound.1, if_pos hfound]
          exact composeRun_cons_error
            (by unfold additionalPropertiesValidator; rw [if_pos hfound.2])
        · rw [if_neg hfound]
          by_cases hadd : additionalProperties = false
          · rw [if_pos hadd]
            exact composeRun_cons_ok
              (additionalPropertiesValidator_pass (fun hf => hfound ⟨hadd, hf⟩))
          · rw [if_neg hadd]
            rfl
  · rw [composeRun_cons_error (ospreyJsonBody_fail hv), if_neg hv]

/- ### Claim C5 -/

/-- C5: when no 2xx response declares a body media type, `acceptsHandler`
returns the empty middleware list, so every request passes whatever its
`Accept` header; when 2xx media types are declared and the negotiator
finds the request's `Accept` header incompatible with them, the request is
rejected with a 406 error whose message names every declared media type. -/
theorem acceptsHandler_negotiation (negotiate : String → List String → Bool)
    (responses responsesNone : List RamlResponse) (accept acceptAny : String)
    (h1 : collectAcceptTypes responsesNone = [])
    (h2 : collectAcceptTypes responses ≠ [])
    (h3 : negotiate accept (collectAcceptTypes responses) = false) :
    composeRun (acceptsHandler negotiate responsesNone) acceptAny = .ok ()
    ∧ composeRun (acceptsHandler negotiate responses) accept =
        .error (notAcceptableError accept (collectAcceptTypes responses))
    ∧ (notAcceptableError accept (collectAcceptTypes responses)).status = 406
    ∧ ∀ t ∈ collectAcceptTypes responses,
        strIncl (jsonQuote t)
          (notAcceptableError accept (collectAcceptTypes responses)).message := by
  refine ⟨?_, ?_, rfl, ?_⟩
  · simp [acceptsHandler, h1, composeRun]
  · have hne : (collectAcceptTypes responses).isEmpty = false := by
      simpa [List.isEmpty_iff] using h2
    simp [acceptsHandler, hne, h3, composeRun]
  · intro t ht
    have h := mem_strIncl_expectedMessage ht
    simpa [notAcceptableError, createError] using strIncl_append_left _ h

/-- C5 witness: a concrete operation with no 2xx body media types passes
any `Accept` header, and one declaring `application/json` rejects a
negotiation failure with 406 naming the type. -/
theorem acceptsHandler_negotiation_witness :
    collectAcceptTypes [RamlResponse.mk 204 []] = []
    ∧ collectAcceptTypes [RamlResponse.mk 200 ["application/json"]] ≠ []
    ∧ (composeRun (acceptsHandler (fun _ _ => false) [RamlResponse.mk 204 []])
          "text/html" = .ok ()
      ∧ composeRun (acceptsHandler (fun _ _ => false)
            [RamlResponse.mk 200 ["application/json"]]) "text/html" =
          .error (notAcceptableError "text/html"
            (collectAcceptTypes [RamlResponse.mk 200 ["application/json"]]))
      ∧ (notAcceptableError "text/html"
          (collectAcceptTypes [RamlResponse.mk 200 ["application/json"]])).status = 406
      ∧ ∀ t ∈ collectAcceptTypes [RamlResponse.mk 200 ["application/json"]],
          strIncl (jsonQuote t)
            (notAcceptableError "text/html"
              (collectAcceptTypes [RamlResponse.mk 200 ["application/json"]])).message) :=
  ⟨by decide, by decide,
    acceptsHandler_negotiation (fun _ _ => false)
      [RamlResponse.mk 200 ["application/json"]] [RamlResponse.mk 204 []]
      "text/html" "text/html" (by decide) (by decide) rfl⟩

/- ### Claim C6 -/

/-- C6: for an operation declaring body media types, a request that
carries a body whose `Content-Type` header matches none of them (the
wildcard-aware `type-is` matcher returning nothing) is rejected with a 415
error whose message names every declared media type. -/
theorem ospreyContentType_unsupported (typeIs : String → List String → Option String)
    (types : List String) (req : ContentTypeRequest)
    (h1 : req.hasBody = true)
    (h2 : typeIs req.contentType types = none) :
    ospreyContentType typeIs types req =
      .error (unsupportedMediaTypeError req.contentType types)
    ∧ (unsupportedMediaTypeError req.contentType types).status = 415
    ∧ ∀ t ∈ types,
        strIncl (jsonQuote t) (unsupportedMediaTypeError req.contentType types).message := by
  refine ⟨?_, rfl, ?_⟩
  · simp [ospreyContentType, h1, h2]
  · intro t ht
    have h := mem_strIncl_expectedMessage ht
    simpa [unsupportedMediaTypeError, createError] using strIncl_append_left _ h

/-- C6 witness: a request with a body of content-type `text/plain` against
an operation declaring only `application/json` is rejected with 415 naming
`application/json`. -/
theorem ospreyContentType_unsupported_witness :
    (ContentTypeRequest.mk true "text/plain" "POST" "/users").hasBody = true
    ∧ (ospreyContentType (fun _ _ => none) ["application/json"]
          (ContentTypeRequest.mk true "text/plain" "POST" "/users") =
        .error (unsupportedMediaTypeError "text/plain" ["application/json"])
      ∧ (unsupportedMediaTypeError "text/plain" ["application/json"]).status = 415
      ∧ ∀ t ∈ ["application/json"],
          strIncl (jsonQuote t)
            (unsupportedMediaTypeError "text/plain" ["application/json"]).message) :=
  ⟨rfl,
    ospreyContentType_unsupported (fun _ _ => none) ["application/json"]
      (ContentTypeRequest.mk true "text/plain" "POST" "/users") rfl rfl⟩

/- ### Claim C8 -/

/-- C8: when the declared JSON-Schema document string cannot be parsed or
compiled, building the handler fails at route-registration time with an
error whose message names the offending method and path, and no middleware
list is produced for the operation. -/
theorem jsonSchemaCompile_fatal {σ ν μ : Type} (parseJson : String → Except String σ)
    (useCustomAjv : Bool) (is03 : σ → Bool) (convertV4 : σ → σ)
    (compile : σ → Except String ν) (parserMW : μ) (mkMW : ν → μ)
    (schemaStr path method msg : String)
    (h : innerCompileJsonSchema parseJson useCustomAjv is03 convertV4 compile
        schemaStr = .error msg) :
    jsonBodyValidationHandlerCompile parseJson useCustomAjv is03 convertV4
        compile schemaStr path method =
      .error ("Unable to compile JSON schema for " ++ method ++ " " ++ path
        ++ ": " ++ msg)
    ∧ jsonBodyHandlerBuild parseJson useCustomAjv is03 convertV4 compile
        parserMW mkMW schemaStr path method =
      .error ("Unable to compile JSON schema for " ++ method ++ " " ++ path
        ++ ": " ++ msg)
    ∧ strIncl method ("Unable to compile JSON schema for " ++ method ++ " "
        ++ path ++ ": " ++ msg)
    ∧ strIncl path ("Unable to compile JSON schema for " ++ method ++ " "
        ++ path ++ ": " ++ msg)
    ∧ ∀ mws : List μ, jsonBodyHandlerBuild parseJson useCustomAjv is03 convertV4
        compile parserMW mkMW schemaStr path method ≠ .ok mws := by
  have hc : jsonBodyValidationHandlerCompile parseJson useCustomAjv is03 convertV4
      compile schemaStr path method =
      .error ("Unable to compile JSON schema for " ++ method ++ " " ++ path
        ++ ": " ++ msg) := by
    unfold jsonBodyValidationHandlerCompile
    rw [h]
  have hb : jsonBodyHandlerBuild parseJson useCustomAjv is03 convertV4 compile
      parserMW mkMW schemaStr path method =
      .error ("Unable to compile JSON schema for " ++ method ++ " " ++ path
        ++ ": " ++ msg) := by
    unfold jsonBodyHandlerBuild
    rw [hc]
  refine ⟨hc, hb, ?_, ?_, ?_⟩
  · exact strIncl_append_right _ (strIncl_append_right _ (strIncl_append_right _
      (strIncl_append_right _ (strIncl_append_left _ (strIncl_refl method)))))
  · exact strIncl_append_right _ (strIncl_append_right _
      (strIncl_append_left _ (strIncl_refl path)))
  · intro mws hok
    rw [hb] at hok
    exact Except.noConfusion hok

/-- C8 witness: a schema string whose parse fails makes the concrete
builder raise the prefixed compile error, naming `POST` and `/users`. -/
theorem jsonSchemaCompile_fatal_witness :
    innerCompileJsonSchema (fun _ => Except.error "Unexpected token o")
        false (fun (_ : Unit) => false) id (fun _ => Except.ok ()) "not json" =
      .error "Unexpected token o"
    ∧ (jsonBodyValidationHandlerCompile (fun _ => Except.error "Unexpected token o")
          false (fun (_ : Unit) => false) id (fun _ => Except.ok ())
          "not json" "/users" "POST" =
        .error ("Unable to compile JSON schema for " ++ "POST" ++ " " ++ "/users"
          ++ ": " ++ "Unexpected token o")
      ∧ jsonBodyHandlerBuild (fun _ => Except.error "Unexpected token o")
          false (fun (_ : Unit) => false) id (fun _ => Except.ok ())
          () (fun (_ : Unit) => ()) "not json" "/users" "POST" =
        .error ("Unable to compile JSON schema for " ++ "POST" ++ " " ++ "/users"
          ++ ": " ++ "Unexpected token o")
      ∧ strIncl "POST" ("Unable to compile JSON schema for " ++ "POST" ++ " "
          ++ "/users" ++ ": " ++ "Unexpected token o")
      ∧ strIncl "/users" ("Unable to compile JSON schema for " ++ "POST" ++ " "
          ++ "/users" ++ ": " ++ "Unexpected token o")
      ∧ ∀ mws : List Unit, jsonBodyHandlerBuild (fun _ => Except.error "Unexpected token o")
          false (fun (_ : Unit) => false) id (fun _ => Except.ok ())
          () (fun (_ : Unit) => ()) "not json" "/users" "POST" ≠ .ok mws) :=
  ⟨rfl,
    jsonSchemaCompile_fatal (fun _ => Except.error "Unexpected token o")
      false (fun (_ : Unit) => false) id (fun _ => Except.ok ())
      () (fun (_ : Unit) => ()) "not json" "/users" "POST" "Unexpected token o" rfl⟩

/- ### Claim C9 -/

/-- C9: `validateWithExtras` is deterministic across invocations — running
it a second time on the same schema and value, starting from the ajv state
the first run left behind, returns the identical report and state, and the
report never depends on the incoming ajv state at all: the only mutable
state (the instance's `errors` property) is overwritten before it is
read. -/
theorem validateWithExtras_deterministic
    (evalSchema : String → String → Option (List AjvError))
    (schema value : String) (st st' : AjvState) :
    (validateWithExtras evalSchema schema value
        (validateWithExtras evalSchema schema value st).2).1
      = (validateWithExtras evalSchema schema value st).1
    ∧ (validateWithExtras evalSchema schema value
        (validateWithExtras evalSchema schema value st).2).2
      = (validateWithExtras evalSchema schema value st).2
    ∧ (validateWithExtras evalSchema schema value st).1
      = (validateWithExtras evalSchema schema value st').1 := by
  unfold validateWithExtras ajvValidateCall
  cases evalSchema schema value <;> simp

/- ### Claim C10 -/

/-- C10: when the multipart body declaration carries no form parameters
(no RAML 0.8 `formParameters` and no RAML 1.0 `properties`),
`formDataBodyHandler` leaves `busboy.emit` untouched: every incoming
field and file event is delivered to the consumer exactly as it arrived,
unvalidated and unsanitized, and the session always ends in success —
no Validation Error (required-field errors included) is ever produced. -/
theorem formDataBodyHandler_noParams (sanitize : String → String → String)
    (validate : String → String → Option RawRamlError) (events : List Part) :
    formDataBodyHandler none sanitize validate events = .ok events := rfl

/- ### Association list lemmas -/

theorem lookupAssoc_insertReplace_self {α : Type} (l : List (String × α))
    (k : String) (v : α) : lookupAssoc (insertReplace l k v) k = some v := by
  induction l with
  | nil => simp [insertReplace, lookupAssoc]
  | cons kv rest ih =>
    obtain ⟨k', v'⟩ := kv
    by_cases h : k' = k
    · subst h
      simp [insertReplace, lookupAssoc]
    · simp [insertReplace, lookupAssoc, h, ih]

theorem lookupAssoc_insertReplace_ne {α : Type} (l : List (String × α))
    {k k' : String} (v : α) (h : k' ≠ k) :
    lookupAssoc (insertReplace l k v) k' = lookupAssoc l k' := by
  have hk : ¬ (k = k') := fun he => h he.symm
  induction l with
  | nil =>
    simp [insertReplace, lookupAssoc, hk]
  | cons kv rest ih =>
    obtain ⟨a, b⟩ := kv
    by_cases ha : a = k
    · subst ha
      simp [insertReplace, lookupAssoc, hk]
    · by_cases ha' : a = k'
      · simp [insertReplace, lookupAssoc, ha, ha', h]
      · simp [insertReplace, lookupAssoc, ha, ha', ih]

theorem mem_of_lookupAssoc_eq_some {α : Type} {l : List (String × α)}
    {k : String} {v : α} (h : lookupAssoc l k = some v) : (k, v) ∈ l := by
  induction l with
  | nil => simp [lookupAssoc] at h
  | cons kv rest ih =>
    obtain ⟨a, b⟩ := kv
    by_cases ha : a = k
    · subst ha
      simp [lookupAssoc] at h
      simp [h]
    · simp [lookupAssoc, ha] at h
      exact List.mem_cons_of_mem _ (ih h)

theorem lookupAssoc_eq_none_of_keys {α : Type} {l : List (String × α)}
    {k : String} (h : ∀ kv ∈ l, kv.1 ≠ k) : lookupAssoc l k = none := by
  induction l with
  | nil => rfl
  | cons kv rest ih =>
    obtain ⟨a, b⟩ := kv
    have ha : a ≠ k := h (a, b) (List.mem_cons_self _ _)
    simp only [lookupAssoc, if_neg ha]
    exact ih (fun kv hm => h kv (List.mem_cons_of_mem _ hm))

theorem insertReplace_keys_mem {α : Type} (l : List (String × α)) (k : String)
    (v : α) (h : k ∈ l.map Prod.fst) :
    (insertReplace l k v).map Prod.fst = l.map Prod.fst := by
  induction l with
  | nil => simp at h
  | cons kv rest ih =>
    obtain ⟨a, b⟩ := kv
    by_cases ha : a = k
    · subst ha
      simp [insertReplace]
    · have hk : k ∈ rest.map Prod.fst := by
        simp only [List.map_cons, List.mem_cons] at h
        rcases h with h | h
        · exact absurd h.symm ha
        · exact h
      simp [insertReplace, ha, ih hk]

theorem insertReplace_keys_not_mem {α : Type} (l : List (String × α)) (k : String)
    (v : α) (h : k ∉ l.map Prod.fst) :
    (insertReplace l k v).map Prod.fst = l.map Prod.fst ++ [k] := by
  induction l with
  | nil => simp [insertReplace]
  | cons kv rest ih =>
    obtain ⟨a, b⟩ := kv
    simp only [List.map_cons, List.mem_cons] at h
    push_neg at h
    have hak : ¬ (a = k) := fun he => h.1 he.symm
    simp [insertReplace, hak, ih h.2]

theorem insertReplace_keys_nodup {α : Type} (l : List (String × α)) (k : String)
    (v : α) (h : (l.map Prod.fst).Nodup) :
    ((insertReplace l k v).map Prod.fst).Nodup := by
  by_cases hm : k ∈ l.map Prod.fst
  · rw [insertReplace_keys_mem l k v hm]
    exact h
  · rw [insertReplace_keys_not_mem l k v hm]
    simp [List.nodup_append, h, hm]

/- ### Streaming form session lemmas -/

theorem stepPart_received_mono (params : List (String × FormParam))
    (san : String → String → String)
    (val : String → String → Option RawRamlError)
    (s : FormSession) (p : Part) {x : String} (h : x ∈ s.received) :
    x ∈ (stepPart params san val s p).received := by
  unfold stepPart
  cases hl : lookupAssoc params p.name with
  | none => exact h
  | some decl =>
    by_cases hc : p.name ∈ s.received ∧ decl.rep = false
    · simp only [if_pos hc]
      exact h
    · simp only [if_neg hc]
      cases hv : val p.name (san p.name p.value) with
      | some err => exact List.mem_cons_of_mem _ h
      | none =>
        by_cases he : s.errored
        · simp only [he, if_true]
          exact List.mem_cons_of_mem _ h
        · simp only [he, Bool.false_eq_true, if_false]
          exact List.mem_cons_of_mem _ h

theorem stepPart_received_declared (params : List (String × FormParam))
    (san : String → String → String)
    (val : String → String → Option RawRamlError)
    (s : FormSession) (p : Part) {d : FormParam}
    (hd : lookupAssoc params p.name = some d) :
    p.name ∈ (stepPart params san val s p).received := by
  unfold stepPart
  rw [hd]
  by_cases hc : p.name ∈ s.received ∧ d.rep = false
  · simp only [if_pos hc]
    exact hc.1
  · simp only [if_neg hc]
    cases hv : val p.name (san p.name p.value) with
    | some err => exact List.mem_cons_self _ _
    | none =>
      by_cases he : s.errored
      · simp only [he, if_true]
        exact List.mem_cons_self _ _
      · simp only [he, Bool.false_eq_true, if_false]
        exact List.mem_cons_self _ _

theorem processParts_received_mono (params : List (String × FormParam))
    (san : String → String → String)
    (val : String → String → Option RawRamlError)
    (events : List Part) (s : FormSession) {x : String} (h : x ∈ s.received) :
    x ∈ (processParts params san val events s).received := by
  induction events generalizing s with
  | nil => exact h
  | cons e rest ih =>
    exact ih (stepPart params san val s e)
      (stepPart_received_mono params san val s e h)

theorem stepPart_received_subset (params : List (String × FormParam))
    (san : String → String → String)
    (val : String → String → Option RawRamlError)
    (s : FormSession) (p : Part) {x : String}
    (h : x ∈ (stepPart params san val s p).received) :
    x = p.name ∨ x ∈ s.received := by
  revert h
  unfold stepPart
  cases hl : lookupAssoc params p.name with
  | none => exact fun h => Or.inr h
  | some decl =>
    by_cases hc : p.name ∈ s.received ∧ decl.rep = false
    · simp only [if_pos hc]
      exact fun h => Or.inr h
    · simp only [if_neg hc]
      cases hv : val p.name (san p.name p.value) with
      | some err => exact fun h => List.mem_cons.mp h
      | none =>
        by_cases he : s.errored
        · simp only [he, if_true]
          exact fun h => List.mem_cons.mp h
        · simp only [he, Bool.false_eq_true, if_false]
          exact fun h => List.mem_cons.mp h

theorem processParts_received_subset (params : List (String × FormParam))
    (san : String → String → String)
    (val : String → String → Option RawRamlError)
    (events : List Part) (s : FormSession) {x : String}
    (h : x ∈ (processParts params san val events s).received) :
    x ∈ events.map Part.name ∨ x ∈ s.received := by
  induction events generalizing s with
  | nil => exact Or.inr h
  | cons e rest ih =>
    rcases ih (stepPart params san val s e) h with h' | h'
    · exact Or.inl (List.mem_cons_of_mem _ h')
    · rcases stepPart_received_subset params san val s e h' with h'' | h''
      · exact Or.inl (h'' ▸ List.mem_cons_self _ _)
      · exact Or.inr h''

theorem stepPart_errored_mono (params : List (String × FormParam))
    (san : String → String → String)
    (val : String → String → Option RawRamlError)
    (s : FormSession) (p : Part) (h : s.errored = true) :
    (stepPart params san val s p).errored = true := by
  unfold stepPart
  cases hl : lookupAssoc params p.name with
  | none => exact h
  | some decl =>
    by_cases hc : p.name ∈ s.received ∧ decl.rep = false
    · simp only [if_pos hc]
    · simp only [if_neg hc]
      cases hv : val p.name (san p.name p.value) with
      | some err => rfl
      | none => simp only [h, if_true]

theorem stepPart_forwarded_of_errored (params : List (String × FormParam))
    (san : String → String → String)
    (val : String → String → Option RawRamlError)
    (s : FormSession) (p : Part) (h : s.errored = true) :
    (stepPart params san val s p).forwarded = s.forwarded := by
  unfold stepPart
  cases hl : lookupAssoc params p.name with
  | none => rfl
  | some decl =>
    by_cases hc : p.name ∈ s.received ∧ decl.rep = false
    · simp only [if_pos hc]
    · simp only [if_neg hc]
      cases hv : val p.name (san p.name p.value) with
      | some err => rfl
      | none => simp only [h, if_true]

theorem processParts_forwarded_of_errored (params : List (String × FormParam))
    (san : String → String → String)
    (val : String → String → Option RawRamlError)
    (events : List Part) (s : FormSession) (h : s.errored = true) :
    (processParts params san val events s).forwarded = s.forwarded
    ∧ (processParts params san val events s).errored = true := by
  induction events generalizing s with
  | nil => exact ⟨rfl, h⟩
  | cons e rest ih =>
    have he := stepPart_errored_mono params san val s e h
    have hstep := stepPart_forwarded_of_errored params san val s e h
    rcases ih (stepPart params san val s e) he with ⟨h1, h2⟩
    exact ⟨h1.trans hstep, h2⟩

theorem stepPart_errors_keys (params : List (String × FormParam))
    (san : String → String → String)
    (val : String → String → Option RawRamlError)
    (s : FormSession) (p : Part) :
    ∃ t, (stepPart params san val s p).errors.map Prod.fst
        = s.errors.map Prod.fst ++ t
      ∧ t.Sublist [p.name] := by
  unfold stepPart
  cases hl : lookupAssoc params p.name with
  | none => exact ⟨[], by simp⟩
  | some decl =>
    by_cases hc : p.name ∈ s.received ∧ decl.rep = false
    · simp only [if_pos hc]
      by_cases hm : p.name ∈ s.errors.map Prod.fst
      · exact ⟨[], by simp [insertReplace_keys_mem _ _ _ hm]⟩
      · exact ⟨[p.name], by simp [insertReplace_keys_not_mem _ _ _ hm]⟩
    · simp only [if_neg hc]
      cases hv : val p.name (san p.name p.value) with
      | some err =>
        by_cases hm : p.name ∈ s.errors.map Prod.fst
        · exact ⟨[], by simp [insertReplace_keys_mem _ _ _ hm]⟩
        · exact ⟨[p.name], by simp [insertReplace_keys_not_mem _ _ _ hm]⟩
      | none =>
        by_cases he : s.errored
        · simp only [he, if_true]
          exact ⟨[], by simp⟩
        · simp only [he, Bool.false_eq_true, if_false]
          exact ⟨[], by simp⟩

theorem processParts_errors_keys (params : List (String × FormParam))
    (san : String → String → String)
    (val : String → String → Option RawRamlError)
    (events : List Part) (s : FormSession) :
    ∃ t, (processParts params san val events s).errors.map Prod.fst
        = s.errors.map Prod.fst ++ t
      ∧ t.Sublist (events.map Part.name) := by
  induction events generalizing s with
  | nil => exact ⟨[], by simp [processParts]⟩
  | cons e rest ih =>
    rcases stepPart_errors_keys params san val s e with ⟨t0, h0, h0s⟩
    rcases ih (stepPart params san val s e) with ⟨t1, h1, h1s⟩
    refine ⟨t0 ++ t1, ?_, ?_⟩
    · show (processParts params san val rest (stepPart params san val s e)).errors.map
          Prod.fst = s.errors.map Prod.fst ++ (t0 ++ t1)
      rw [h1, h0, List.append_assoc]
    · have : (e :: rest).map Part.name = [e.name] ++ rest.map Part.name := by simp
      rw [this]
      exact List.Sublist.append h0s h1s

theorem stepPart_errors_nodup (params : List (String × FormParam))
    (san : String → String → String)
    (val : String → String → Option RawRamlError)
    (s : FormSession) (p : Part)
    (h : (s.errors.map Prod.fst).Nodup) :
    ((stepPart params san val s p).errors.map Prod.fst).Nodup := by
  unfold stepPart
  cases hl : lookupAssoc params p.name with
  | none => exact h
  | some decl =>
    by_cases hc : p.name ∈ s.received ∧ decl.rep = false
    · simp only [if_pos hc]
      exact insertReplace_keys_nodup _ _ _ h
    · simp only [if_neg hc]
      cases hv : val p.name (san p.name p.value) with
      | some err => exact insertReplace_keys_nodup _ _ _ h
      | none =>
        by_cases he : s.errored
        · simp only [he, if_true]
          exact h
        · simp only [he, Bool.false_eq_true, if_false]
          exact h

theorem processParts_errors_nodup (params : List (String × FormParam))
    (san : String → String → String)
    (val : String → String → Option RawRamlError)
    (events : List Part) (s : FormSession)
    (h : (s.errors.map Prod.fst).Nodup) :
    ((processParts params san val events s).errors.map Prod.fst).Nodup := by
  induction events generalizing s with
  | nil => exact h
  | cons e rest ih =>
    exact ih (stepPart params san val s e) (stepPart_errors_nodup params san val s e h)

theorem mem_insertReplace {α : Type} {l : List (String × α)} {k : String}
    {v : α} {kv : String × α} (h : kv ∈ insertReplace l k v) :
    kv = (k, v) ∨ kv ∈ l := by
  induction l with
  | nil =>
    simp [insertReplace] at h
    exact Or.inl h
  | cons a rest ih =>
    obtain ⟨a1, a2⟩ := a
    by_cases ha : a1 = k
    · subst ha
      simp only [insertReplace, if_pos rfl] at h
      rcases List.mem_cons.mp h with h | h
      · exact Or.inl h
      · exact Or.inr (List.mem_cons_of_mem _ h)
    · simp only [insertReplace, if_neg ha] at h
      rcases List.mem_cons.mp h with h | h
      · exact Or.inr (h ▸ List.mem_cons_self _ _)
      · rcases ih h with h' | h'
        · exact Or.inl h'
        · exact Or.inr (List.mem_cons_of_mem _ h')

theorem stepPart_key_consistent (params : List (String × FormParam))
    (san : String → String → String)
    (val : String → String → Option RawRamlError)
    (hval : ∀ nm v e, val nm v = some e → e.key = some nm)
    (s : FormSession) (p : Part)
    (h : ∀ kv ∈ s.errors, kv.2.key = some kv.1) :
    ∀ kv ∈ (stepPart params san val s p).errors, kv.2.key = some kv.1 := by
  unfold stepPart
  cases hl : lookupAssoc params p.name with
  | none => exact h
  | some decl =>
    by_cases hc : p.name ∈ s.received ∧ decl.rep = false
    · simp only [if_pos hc]
      intro kv hkv
      rcases mem_insertReplace hkv with rfl | hkv'
      · rfl
      · exact h kv hkv'
    · simp only [if_neg hc]
      cases hv : val p.name (san p.name p.value) with
      | some err =>
        intro kv hkv
        rcases mem_insertReplace hkv with rfl | hkv'
        · exact hval _ _ _ hv
        · exact h kv hkv'
      | none =>
        by_cases he : s.errored
        · simp only [he, if_true]
          exact h
        · simp only [he, Bool.false_eq_true, if_false]
          exact h

theorem processParts_key_consistent (params : List (String × FormParam))
    (san : String → String → String)
    (val : String → String → Option RawRamlError)
    (hval : ∀ nm v e, val nm v = some e → e.key = some nm)
    (events : List Part) (s : FormSession)
    (h : ∀ kv ∈ s.errors, kv.2.key = some kv.1) :
    ∀ kv ∈ (processParts params san val events s).errors, kv.2.key = some kv.1 := by
  induction events generalizing s with
  | nil => exact h
  | cons e rest ih =>
    exact ih (stepPart params san val s e)
      (stepPart_key_consistent params san val hval s e h)

theorem stepPart_errors_lookup_stable (params : List (String × FormParam))
    (san : String → String → String)
    (val : String → String → Option RawRamlError)
    (s : FormSession) (p : Part) {m : String} (hne : m ≠ p.name) :
    lookupAssoc (stepPart params san val s p).errors m = lookupAssoc s.errors m := by
  unfold stepPart
  cases hl : lookupAssoc params p.name with
  | none => rfl
  | some decl =>
    by_cases hc : p.name ∈ s.received ∧ decl.rep = false
    · simp only [if_pos hc]
      exact lookupAssoc_insertReplace_ne _ _ hne
    · simp only [if_neg hc]
      cases hv : val p.name (san p.name p.value) with
      | some err => exact lookupAssoc_insertReplace_ne _ _ hne
      | none =>
        by_cases he : s.errored
        · simp only [he, if_true]
        · simp only [he, Bool.false_eq_true, if_false]

theorem processParts_errors_lookup_stable (params : List (String × FormParam))
    (san : String → String → String)
    (val : String → String → Option RawRamlError)
    (events : List Part) (s : FormSession) {m : String}
    (hm : m ∉ events.map Part.name) :
    lookupAssoc (processParts params san val events s).errors m
      = lookupAssoc s.errors m := by
  induction events generalizing s with
  | nil => rfl
  | cons e rest ih =>
    simp only [List.map_cons, List.mem_cons] at hm
    push_neg at hm
    exact (ih (stepPart params san val s e) hm.2).trans
      (stepPart_errors_lookup_stable params san val s e hm.1)

theorem insertReplace_ne_nil {α : Type} (l : List (String × α)) (k : String)
    (v : α) : insertReplace l k v ≠ [] := by
  cases l with
  | nil => simp [insertReplace]
  | cons a rest =>
    obtain ⟨a1, a2⟩ := a
    by_cases ha : a1 = k <;> simp [insertReplace, ha]

theorem stepPart_errors_nil_of_not_errored (params : List (String × FormParam))
    (san : String → String → String)
    (val : String → String → Option RawRamlError)
    (s : FormSession) (p : Part)
    (h : s.errored = false → s.errors = [])
    (h2 : (stepPart params san val s p).errored = false) :
    (stepPart params san val s p).errors = [] := by
  revert h2
  unfold stepPart
  cases hl : lookupAssoc params p.name with
  | none => exact h
  | some decl =>
    by_cases hc : p.name ∈ s.received ∧ decl.rep = false
    · simp only [if_pos hc]
      intro h2
      cases h2
    · simp only [if_neg hc]
      cases hv : val p.name (san p.name p.value) with
      | some err =>
        intro h2
        cases h2
      | none =>
        by_cases he : s.errored
        · simp only [he, if_true]
          intro h2
          simp at h2
        · have hf : s.errored = false := by simpa using he
          simp only [he, Bool.false_eq_true, if_false]
          intro _
          exact h hf

theorem processParts_errored_of_errors_ne (params : List (String × FormParam))
    (san : String → String → String)
    (val : String → String → Option RawRamlError)
    (events : List Part) (s : FormSession)
    (h : s.errored = false → s.errors = []) :
    (processParts params san val events s).errored = false →
      (processParts params san val events s).errors = [] := by
  induction events generalizing s with
  | nil => exact h
  | cons e rest ih =>
    exact ih (stepPart params san val s e)
      (stepPart_errors_nil_of_not_errored params san val s e h)

theorem stepPart_repeat_inv (params : List (String × FormParam))
    (san : String → String → String)
    (val : String → String → Option RawRamlError)
    {n : String} {d : FormParam}
    (hd : lookupAssoc params n = some d) (hrep : d.rep = false)
    (s : FormSession) (p : Part)
    (h : n ∈ s.received
      ∧ ∃ e, lookupAssoc s.errors n = some e ∧ e.rule = "repeat") :
    n ∈ (stepPart params san val s p).received
    ∧ ∃ e, lookupAssoc (stepPart params san val s p).errors n = some e
        ∧ e.rule = "repeat" := by
  refine ⟨stepPart_received_mono params san val s p h.1, ?_⟩
  by_cases hpn : p.name = n
  · subst hpn
    unfold stepPart
    rw [hd]
    have hc : p.name ∈ s.received ∧ d.rep = false := ⟨h.1, hrep⟩
    simp only [if_pos hc]
    exact ⟨repeatError p.name (san p.name p.value),
      lookupAssoc_insertReplace_self _ _ _, rfl⟩
  · rcases h.2 with ⟨e, he, her⟩
    refine ⟨e, ?_, her⟩
    rw [stepPart_errors_lookup_stable params san val s p (fun hx => hpn hx.symm)]
    exact he

theorem processParts_repeat_inv (params : List (String × FormParam))
    (san : String → String → String)
    (val : String → String → Option RawRamlError)
    {n : String} {d : FormParam}
    (hd : lookupAssoc params n = some d) (hrep : d.rep = false)
    (events : List Part) (s : FormSession)
    (h : n ∈ s.received
      ∧ ∃ e, lookupAssoc s.errors n = some e ∧ e.rule = "repeat") :
    n ∈ (processParts params san val events s).received
    ∧ ∃ e, lookupAssoc (processParts params san val events s).errors n = some e
        ∧ e.rule = "repeat" := by
  induction events generalizing s with
  | nil => exact h
  | cons e rest ih =>
    exact ih (stepPart params san val s e)
      (stepPart_repeat_inv params san val hd hrep s e h)

theorem countP_assoc_unique {l : List (String × RawRamlError)} {n : String}
    {e : RawRamlError}
    (hnd : (l.map Prod.fst).Nodup)
    (hcons : ∀ kv ∈ l, kv.2.key = some kv.1)
    (hl : lookupAssoc l n = some e) (hrule : e.rule = "repeat") :
    (l.map Prod.snd).countP
      (fun er => decide (er.key = some n ∧ er.rule = "repeat")) = 1 := by
  induction l with
  | nil => simp [lookupAssoc] at hl
  | cons kv rest ih =>
    obtain ⟨a, b⟩ := kv
    simp only [List.map_cons, List.nodup_cons] at hnd
    by_cases ha : a = n
    · subst ha
      have hb : b.key = some a := hcons (a, b) (List.mem_cons_self _ _)
      have hbe : b = e := by simpa [lookupAssoc] using hl
      subst hbe
      have hrest : (rest.map Prod.snd).countP
          (fun er => decide (er.key = some a ∧ er.rule = "repeat")) = 0 := by
        rw [List.countP_eq_zero]
        intro er hmem
        rcases List.mem_map.mp hmem with ⟨kv', hkv', rfl⟩
        have hk : kv'.2.key = some kv'.1 :=
          hcons kv' (List.mem_cons_of_mem _ hkv')
        have hkne : kv'.1 ≠ a := by
          intro hx
          exact hnd.1 (hx ▸ List.mem_map_of_mem Prod.fst hkv')
        simp [hk, hkne]
      rw [List.map_cons, List.countP_cons, hrest]
      simp [hb, hrule]
    · have hb : b.key = some a := hcons (a, b) (List.mem_cons_self _ _)
      simp only [lookupAssoc, if_neg ha] at hl
      have hc := ih hnd.2 (fun kv hm => hcons kv (List.mem_cons_of_mem _ hm)) hl
      rw [List.map_cons, List.countP_cons, hc]
      simp [hb, ha]

theorem processParts_append (params : List (String × FormParam))
    (san : String → String → String)
    (val : String → String → Option RawRamlError)
    (a b : List Part) (s : FormSession) :
    processParts params san val (a ++ b) s
      = processParts params san val b (processParts params san val a s) := by
  simp [processParts, List.foldl_append]

theorem stepPart_repeat_records (params : List (String × FormParam))
    (san : String → String → String)
    (val : String → String → Option RawRamlError)
    (s : FormSession) (p : Part) {d : FormParam}
    (hd : lookupAssoc params p.name = some d) (hrep : d.rep = false)
    (hrecv : p.name ∈ s.received) :
    stepPart params san val s p
      = { s with
          errors := insertReplace s.errors p.name
            (repeatError p.name (san p.name p.value))
          errored := true } := by
  unfold stepPart
  rw [hd]
  simp only [if_pos (And.intro hrecv hrep)]

theorem stepPart_records_invalid (params : List (String × FormParam))
    (san : String → String → String)
    (val : String → String → Option RawRamlError)
    (s : FormSession) (p : Part) {d : FormParam} {e : RawRamlError}
    (hd : lookupAssoc params p.name = some d)
    (hrecv : p.name ∉ s.received)
    (hv : val p.name (san p.name p.value) = some e) :
    stepPart params san val s p
      = { s with
          received := p.name :: s.received
          errors := insertReplace s.errors p.name e
          errored := true } := by
  unfold stepPart
  rw [hd]
  have hc : ¬ (p.name ∈ s.received ∧ d.rep = false) := fun h => hrecv h.1
  simp only [if_neg hc, hv]

/- ### Claim C2 -/

/-- C2 (counterexample): with required field `a` missing and field `b`
failing its pattern rule, the aggregated list handed to the failure signal
is `[required, pattern]` — the synthesized required error comes first and
the per-part error after it, not the other way around as claimed. -/
theorem formData_required_first_cex :
    (formatRamlErrors
        (finishErrors cFormParams
          (processParts cFormParams cFormSan cFormVal cFormEvents initSession))
        "form").map (·.keyword) = ["required", "pattern"]
    ∧ finishErrors cFormParams
        (processParts cFormParams cFormSan cFormVal cFormEvents initSession)
      ≠ (processParts cFormParams cFormSan cFormVal cFormEvents
            initSession).errors.map Prod.snd
        ++ (missingRequired cFormParams
            (processParts cFormParams cFormSan cFormVal cFormEvents
              initSession)).map (fun kv => requiredError kv.1) := by
  constructor
  · rfl
  · decide

/-- C2 (amended): for every multipart session ending with at least one
per-part error recorded and at least one required field never received,
the aggregated list handed to the failure signal is exactly the
synthesized `required` errors for the missing fields (in declaration
order) followed by the per-part errors; the per-part error keys appear in
part-arrival order (their key sequence is a subsequence of the event-name
arrival sequence), and both blocks are nonempty. -/
theorem formData_error_aggregation (params : List (String × FormParam))
    (san : String → String → String)
    (val : String → String → Option RawRamlError) (evs : List Part)
    (h1 : (processParts params san val evs initSession).errors ≠ [])
    (h2 : missingRequired params
        (processParts params san val evs initSession) ≠ []) :
    runFormSession params san val evs =
      .error (createValidationError (formatRamlErrors
        (finishErrors params (processParts params san val evs initSession))
        "form"))
    ∧ finishErrors params (processParts params san val evs initSession)
      = (missingRequired params
            (processParts params san val evs initSession)).map
          (fun kv => requiredError kv.1)
        ++ (processParts params san val evs initSession).errors.map Prod.snd
    ∧ ((processParts params san val evs initSession).errors.map
        Prod.fst).Sublist (evs.map Part.name)
    ∧ (missingRequired params
          (processParts params san val evs initSession)).map
        (fun kv => requiredError kv.1) ≠ []
    ∧ (processParts params san val evs initSession).errors.map Prod.snd ≠ [] := by
  have hreq : (missingRequired params
      (processParts params san val evs initSession)).map
        (fun kv => requiredError kv.1) ≠ [] := by
    intro hnil
    exact h2 (List.map_eq_nil_iff.mp hnil)
  have herrs : (processParts params san val evs initSession).errors.map
      Prod.snd ≠ [] := by
    intro hnil
    exact h1 (List.map_eq_nil_iff.mp hnil)
  have hfe : finishErrors params
      (processParts params san val evs initSession) ≠ [] := by
    unfold finishErrors
    intro hnil
    rcases List.append_eq_nil.mp hnil with ⟨ha, _⟩
    exact hreq ha
  refine ⟨?_, rfl, ?_, hreq, herrs⟩
  · unfold runFormSession
    have hie : (finishErrors params
        (processParts params san val evs initSession)).isEmpty = false := by
      simpa [List.isEmpty_iff] using hfe
    simp only [hie, Bool.false_eq_true, if_false]
  · rcases processParts_errors_keys params san val evs initSession
      with ⟨t, ht, hts⟩
    have hkeys : (processParts params san val evs initSession).errors.map
        Prod.fst = t := by
      simpa [initSession] using ht
    rw [hkeys]
    exact hts

/-- C2 witness: the concrete session of `cFormEvents` has a recorded
per-part error and a missing required field, and the theorem's
aggregation shape holds of it. -/
theorem formData_error_aggregation_witness :
    (processParts cFormParams cFormSan cFormVal cFormEvents
        initSession).errors ≠ []
    ∧ missingRequired cFormParams
        (processParts cFormParams cFormSan cFormVal cFormEvents initSession) ≠ []
    ∧ (runFormSession cFormParams cFormSan cFormVal cFormEvents =
        .error (createValidationError (formatRamlErrors
          (finishErrors cFormParams
            (processParts cFormParams cFormSan cFormVal cFormEvents initSession))
          "form"))
      ∧ finishErrors cFormParams
          (processParts cFormParams cFormSan cFormVal cFormEvents initSession)
        = (missingRequired cFormParams
              (processParts cFormParams cFormSan cFormVal cFormEvents
                initSession)).map (fun kv => requiredError kv.1)
          ++ (processParts cFormParams cFormSan cFormVal cFormEvents
              initSession).errors.map Prod.snd
      ∧ ((processParts cFormParams cFormSan cFormVal cFormEvents
            initSession).errors.map Prod.fst).Sublist
          (cFormEvents.map Part.name)
      ∧ (missingRequired cFormParams
            (processParts cFormParams cFormSan cFormVal cFormEvents
              initSession)).map (fun kv => requiredError kv.1) ≠ []
      ∧ (processParts cFormParams cFormSan cFormVal cFormEvents
          initSession).errors.map Prod.snd ≠ []) :=
  ⟨by decide, by decide,
    formData_error_aggregation cFormParams cFormSan cFormVal cFormEvents
      (by decide) (by decide)⟩

/- ### Claim C4 -/

/-- C4: once any Validation Error has been recorded for the session
(nonempty `errors` after a prefix of the stream), processing the rest of
the stream forwards nothing further to the consumption path; yet a
subsequent declared part in an errored session is still sanitized and
validated — a failing validation is recorded under the part's name — and
still not forwarded. -/
theorem formData_no_forward_after_error (params : List (String × FormParam))
    (san : String → String → String)
    (val : String → String → Option RawRamlError)
    (pre post : List Part) (s : FormSession) (p : Part)
    (d : FormParam) (e : RawRamlError)
    (h1 : (processParts params san val pre initSession).errors ≠ [])
    (h2 : s.errored = true)
    (h3 : lookupAssoc params p.name = some d)
    (h4 : p.name ∉ s.received)
    (h5 : val p.name (san p.name p.value) = some e) :
    (processParts params san val (pre ++ post) initSession).forwarded
      = (processParts params san val pre initSession).forwarded
    ∧ lookupAssoc (stepPart params san val s p).errors p.name = some e
    ∧ (stepPart params san val s p).forwarded = s.forwarded := by
  refine ⟨?_, ?_, ?_⟩
  · have herr : (processParts params san val pre initSession).errored = true := by
      by_contra hfe
      have hf : (processParts params san val pre initSession).errored = false := by
        simpa using hfe
      exact h1 (processParts_errored_of_errors_ne params san val pre initSession
        (fun _ => rfl) hf)
    rw [processParts_append]
    exact (processParts_forwarded_of_errored params san val post _ herr).1
  · rw [stepPart_records_invalid params san val s p h3 h4 h5]
    exact lookupAssoc_insertReplace_self _ _ _
  · rw [stepPart_records_invalid params san val s p h3 h4 h5]

/-- C4 witness: after the failing `b` part, a later declared part in an
errored session is validated and recorded but not forwarded, and the
stream suffix forwards nothing. -/
theorem formData_no_forward_after_error_witness :
    (processParts cFormParams cFormSan cFormVal cFormEvents
        initSession).errors ≠ []
    ∧ (FormSession.mk [] [] true []).errored = true
    ∧ lookupAssoc cFormParams (Part.mk false "b" "zz").name
        = some { required := false, rep := false }
    ∧ (Part.mk false "b" "zz").name ∉ (FormSession.mk [] [] true []).received
    ∧ cFormVal (Part.mk false "b" "zz").name
        (cFormSan (Part.mk false "b" "zz").name (Part.mk false "b" "zz").value)
      = some { rule := "pattern", key := some "b", value := some "zz",
               attr := .str "[0-9]+" }
    ∧ ((processParts cFormParams cFormSan cFormVal
          (cFormEvents ++ [Part.mk false "a" "ok"]) initSession).forwarded
        = (processParts cFormParams cFormSan cFormVal cFormEvents
            initSession).forwarded
      ∧ lookupAssoc (stepPart cFormParams cFormSan cFormVal
          (FormSession.mk [] [] true []) (Part.mk false "b" "zz")).errors
          (Part.mk false "b" "zz").name
        = some { rule := "pattern", key := some "b", value := some "zz",
                 attr := .str "[0-9]+" }
      ∧ (stepPart cFormParams cFormSan cFormVal
          (FormSession.mk [] [] true []) (Part.mk false "b" "zz")).forwarded
        = (FormSession.mk [] [] true []).forwarded) :=
  ⟨by decide, rfl, by decide, by decide, by decide,
    formData_no_forward_after_error cFormParams cFormSan cFormVal
      cFormEvents [Part.mk false "a" "ok"] (FormSession.mk [] [] true [])
      (Part.mk false "b" "zz") { required := false, rep := false }
      { rule := "pattern", key := some "b", value := some "zz",
        attr := .str "[0-9]+" }
      (by decide) rfl (by decide) (by decide) (by decide)⟩

theorem processParts_singleton (params : List (String × FormParam))
    (san : String → String → String)
    (val : String → String → Option RawRamlError)
    (x : Part) (s : FormSession) :
    processParts params san val [x] s = stepPart params san val s x := rfl

/-- C3: in a multipart session where two parts `p1`, `p2` share the
declared, non-repeatable name `n`, the final aggregated Validation Error
list contains exactly one `repeat` error referencing `n`; the duplicate
part is discarded without touching the forwarded events; and the stream is
not aborted — a later part `q` with a distinct declared name whose value
fails validation still gets its own error into the same aggregated
list. -/
theorem formData_repeat_once (params : List (String × FormParam))
    (san : String → String → String)
    (val : String → String → Option RawRamlError)
    (pre mid post1 post2 : List Part) (p1 p2 q : Part)
    (n m : String) (d dm : FormParam) (eq : RawRamlError)
    (hval : ∀ nm v e, val nm v = some e → e.key = some nm)
    (h1 : p1.name = n) (h2 : p2.name = n)
    (hd : lookupAssoc params n = some d) (hrep : d.rep = false)
    (hq : q.name = m) (hmn : m ≠ n)
    (hdm : lookupAssoc params m = some dm)
    (hqv : val m (san m q.value) = some eq)
    (hm1 : m ∉ (pre ++ [p1] ++ mid ++ [p2] ++ post1).map Part.name)
    (hm2 : m ∉ post2.map Part.name) :
    (formatRamlErrors (finishErrors params
        (processParts params san val
          (pre ++ [p1] ++ mid ++ [p2] ++ post1 ++ [q] ++ post2) initSession))
      "form").countP
        (fun er => decide (er.dataPath = some n ∧ er.keyword = "repeat")) = 1
    ∧ eq ∈ finishErrors params
        (processParts params san val
          (pre ++ [p1] ++ mid ++ [p2] ++ post1 ++ [q] ++ post2) initSession)
    ∧ ∀ s' : FormSession, n ∈ s'.received →
        (stepPart params san val s' p2).forwarded = s'.forwarded := by
  subst h1
  subst hq
  generalize hs1 : processParts params san val pre initSession = s1
  generalize hs2 : stepPart params san val s1 p1 = s2
  generalize hs3 : processParts params san val mid s2 = s3
  generalize hs4 : stepPart params san val s3 p2 = s4
  generalize hs5 : processParts params san val post1 s4 = s5
  generalize hs6 : stepPart params san val s5 q = s6
  generalize hs7 : processParts params san val post2 s6 = s7
  have hs5full : processParts params san val
      (pre ++ [p1] ++ mid ++ [p2] ++ post1) initSession = s5 := by
    simp only [processParts_append, processParts_singleton]
    rw [hs1, hs2, hs3, hs4, hs5]
  have hs7full : processParts params san val
      (pre ++ [p1] ++ mid ++ [p2] ++ post1 ++ [q] ++ post2) initSession = s7 := by
    simp only [processParts_append, processParts_singleton]
    rw [hs1, hs2, hs3, hs4, hs5, hs6, hs7]
  rw [hs7full]
  -- the second occurrence of the name `p1.name`
  have hn2 : p1.name ∈ s2.received := by
    rw [← hs2]
    exact stepPart_received_declared params san val s1 p1 hd
  have hn3 : p1.name ∈ s3.received := by
    rw [← hs3]
    exact processParts_received_mono params san val mid s2 hn2
  have hs4eq : s4 = { s3 with
      errors := insertReplace s3.errors p2.name
        (repeatError p2.name (san p2.name p2.value))
      errored := true } := by
    rw [← hs4]
    exact stepPart_repeat_records params san val s3 p2
      (by rw [h2]; exact hd) hrep (by rw [h2]; exact hn3)
  rw [h2] at hs4eq
  have hinv4 : p1.name ∈ s4.received
      ∧ ∃ e', lookupAssoc s4.errors p1.name = some e'
          ∧ e'.rule = "repeat" := by
    constructor
    · rw [hs4eq]
      exact hn3
    · refine ⟨repeatError p1.name (san p1.name p2.value), ?_, rfl⟩
      rw [hs4eq]
      exact lookupAssoc_insertReplace_self _ _ _
  have hinv5 : p1.name ∈ s5.received
      ∧ ∃ e', lookupAssoc s5.errors p1.name = some e'
          ∧ e'.rule = "repeat" := by
    rw [← hs5]
    exact processParts_repeat_inv params san val hd hrep post1 s4 hinv4
  -- the later part `q` with a fresh name
  have hm5 : q.name ∉ s5.received := by
    intro hmem
    rw [← hs5full] at hmem
    rcases processParts_received_subset params san val _ initSession hmem
      with h' | h'
    · exact hm1 h'
    · simp [initSession] at h'
  have hs6eq : s6 = { s5 with
      received := q.name :: s5.received
      errors := insertReplace s5.errors q.name eq
      errored := true } := by
    rw [← hs6]
    exact stepPart_records_invalid params san val s5 q hdm hm5 hqv
  have hinv6 : p1.name ∈ s6.received
      ∧ ∃ e', lookupAssoc s6.errors p1.name = some e'
          ∧ e'.rule = "repeat" := by
    rw [← hs6]
    exact stepPart_repeat_inv params san val hd hrep s5 q hinv5
  have hinv7 : p1.name ∈ s7.received
      ∧ ∃ e', lookupAssoc s7.errors p1.name = some e'
          ∧ e'.rule = "repeat" := by
    rw [← hs7]
    exact processParts_repeat_inv params san val hd hrep post2 s6 hinv6
  have hlm7 : lookupAssoc s7.errors q.name = some eq := by
    rw [← hs7]
    rw [processParts_errors_lookup_stable params san val post2 s6 hm2]
    rw [hs6eq]
    exact lookupAssoc_insertReplace_self _ _ _
  have hnd : (s7.errors.map Prod.fst).Nodup := by
    rw [← hs7full]
    exact processParts_errors_nodup params san val _ initSession
      (by simp [initSession])
  have hcons : ∀ kv ∈ s7.errors, kv.2.key = some kv.1 := by
    rw [← hs7full]
    exact processParts_key_consistent params san val hval _ initSession
      (by simp [initSession])
  refine ⟨?_, ?_, ?_⟩
  · rcases hinv7.2 with ⟨er, hler, herrule⟩
    have hcount_raw : (s7.errors.map Prod.snd).countP
        (fun e' => decide (e'.key = some p1.name ∧ e'.rule = "repeat")) = 1 :=
      countP_assoc_unique hnd hcons hler herrule
    have hreq0 : ((missingRequired params s7).map
        (fun kv => requiredError kv.1)).countP
        (fun e' => decide (e'.key = some p1.name ∧ e'.rule = "repeat")) = 0 := by
      rw [List.countP_eq_zero]
      intro e' hmem
      rcases List.mem_map.mp hmem with ⟨kv, _, rfl⟩
      simp [requiredError]
    have hshape : (formatRamlErrors (finishErrors params s7) "form").countP
        (fun er => decide (er.dataPath = some p1.name ∧ er.keyword = "repeat"))
        = (finishErrors params s7).countP
          (fun e' => decide (e'.key = some p1.name ∧ e'.rule = "repeat")) := by
      unfold formatRamlErrors
      rw [List.countP_map]
      rfl
    rw [hshape]
    unfold finishErrors
    rw [List.countP_append, hreq0, hcount_raw]
  · have hmem : (q.name, eq) ∈ s7.errors := mem_of_lookupAssoc_eq_some hlm7
    unfold finishErrors
    exact List.mem_append_right _ (List.mem_map_of_mem Prod.snd hmem)
  · intro s' hmem
    rw [stepPart_repeat_records params san val s' p2
      (by rw [h2]; exact hd) hrep (by rw [h2]; exact hmem)]

theorem cFormVal_key_consistent :
    ∀ nm v e, cFormVal nm v = some e → e.key = some nm := by
  intro nm v e h
  unfold cFormVal at h
  by_cases ha : nm = "a"
  · rw [if_pos ha] at h
    cases h
  · rw [if_neg ha] at h
    cases h
    rfl

/-- C3 witness: two `a` parts followed by a failing `b` part — one
`repeat` error for `a`, the `b` pattern error still collected, and the
duplicate `a` part forwarded nowhere. -/
theorem formData_repeat_once_witness :
    (∀ nm v e, cFormVal nm v = some e → e.key = some nm)
    ∧ (Part.mk false "a" "x").name = "a"
    ∧ (Part.mk false "a" "y").name = "a"
    ∧ lookupAssoc cFormParams "a" = some { required := true, rep := false }
    ∧ FormParam.rep { required := true, rep := false } = false
    ∧ (Part.mk false "b" "z").name = "b"
    ∧ "b" ≠ "a"
    ∧ lookupAssoc cFormParams "b" = some { required := false, rep := false }
    ∧ cFormVal "b" (cFormSan "b" (Part.mk false "b" "z").value)
      = some { rule := "pattern", key := some "b", value := some "z",
               attr := .str "[0-9]+" }
    ∧ ((formatRamlErrors (finishErrors cFormParams
          (processParts cFormParams cFormSan cFormVal
            ([] ++ [Part.mk false "a" "x"] ++ [] ++ [Part.mk false "a" "y"]
              ++ [] ++ [Part.mk false "b" "z"] ++ []) initSession))
        "form").countP
          (fun er => decide (er.dataPath = some "a" ∧ er.keyword = "repeat")) = 1
      ∧ ({ rule := "pattern", key := some "b", value := some "z",
           attr := Attr.str "[0-9]+" } : RawRamlError) ∈
          finishErrors cFormParams
            (processParts cFormParams cFormSan cFormVal
              ([] ++ [Part.mk false "a" "x"] ++ [] ++ [Part.mk false "a" "y"]
                ++ [] ++ [Part.mk false "b" "z"] ++ []) initSession)
      ∧ ∀ s' : FormSession, "a" ∈ s'.received →
          (stepPart cFormParams cFormSan cFormVal s'
            (Part.mk false "a" "y")).forwarded = s'.forwarded) :=
  ⟨cFormVal_key_consistent, rfl, rfl, by decide, rfl, rfl, by decide, by decide,
    by decide,
    formData_repeat_once cFormParams cFormSan cFormVal [] [] [] []
      (Part.mk false "a" "x") (Part.mk false "a" "y") (Part.mk false "b" "z")
      "a" "b" { required := true, rep := false } { required := false, rep := false }
      { rule := "pattern", key := some "b", value := some "z",
        attr := .str "[0-9]+" }
      cFormVal_key_consistent rfl rfl (by decide) rfl rfl (by decide) (by decide)
      (by decide) (by decide) (by decide)⟩

/- ### Claim C7 -/

theorem checkField_dataPath (extraRules : FieldDecl → Value → List String)
    (name : String) (d : FieldDecl) (v : Option Value) :
    ∀ e ∈ checkField extraRules name d v, e.dataPath = some name := by
  intro e he
  unfold checkField at he
  cases v with
  | none =>
    by_cases hr : d.required
    · rw [if_pos hr] at he
      rcases List.mem_singleton.mp he with rfl
      rfl
    · rw [if_neg hr] at he
      cases he
  | some v =>
    rcases List.mem_append.mp he with he' | he'
    · by_cases ht : ¬ typeMatches d.ftype v = true
      · rw [if_pos ht] at he'
        rcases List.mem_singleton.mp he' with rfl
        rfl
      · rw [if_neg ht] at he'
        cases he'
    · rcases List.mem_map.mp he' with ⟨rule, _, rfl⟩
      rfl

theorem specValidate_mem (extraRules : FieldDecl → Value → List String)
    (decls : List (String × FieldDecl)) (m : List (String × Value)) :
    ∀ e ∈ specValidate extraRules decls m,
      ∃ kv, kv ∈ decls ∧ e.dataPath = some kv.1 := by
  induction decls with
  | nil => intro e he; cases he
  | cons kv rest ih =>
    intro e he
    rcases List.mem_append.mp he with he' | he'
    · exact ⟨kv, List.mem_cons_self _ _, checkField_dataPath _ _ _ _ e he'⟩
    · rcases ih e he' with ⟨kv', hkv', hp⟩
      exact ⟨kv', List.mem_cons_of_mem _ hkv', hp⟩

theorem lookupAssoc_ne_none_of_mem {α : Type} {l : List (String × α)}
    {k : String} {v : α} (h : (k, v) ∈ l) : lookupAssoc l k ≠ none := by
  induction l with
  | nil => cases h
  | cons kv rest ih =>
    obtain ⟨a, b⟩ := kv
    by_cases ha : a = k
    · simp [lookupAssoc, ha]
    · rcases List.mem_cons.mp h with h' | h'
      · cases h'
        exact absurd rfl ha
      · simp only [lookupAssoc, if_neg ha]
        exact ih h'

/-- C7: with `discardUnknownQueryParameters` enabled, an undeclared query
parameter name never appears in the sanitized/filtered query map exposed
as `req.query`, and never appears in any Validation Error of the report;
in particular for the declaration `a: string` and the raw query
`a=value&b=value`, the resulting query map is exactly `a = "value"`. -/
theorem ospreyQuery_allowlist (extraRules : FieldDecl → Value → List String)
    (decls : List (String × FieldDecl)) (raw : List (String × String))
    (b : String) (hb : lookupAssoc decls b = none) :
    lookupAssoc (ospreyQueryFilter decls raw) b = none
    ∧ (∀ e ∈ specValidate extraRules decls (ospreyQueryFilter decls raw),
        e.dataPath ≠ some b)
    ∧ ospreyQuery (fun _ _ => []) [("a", { ftype := .string, required := true })]
        [("a", "value"), ("b", "value")]
      = .ok [("a", Value.str "value")] := by
  refine ⟨?_, ?_, rfl⟩
  · apply lookupAssoc_eq_none_of_keys
    intro kv hkv hk
    have hcond := (List.mem_filter.mp hkv).2
    rw [hk, hb] at hcond
    cases hcond
  · intro e he hp
    rcases specValidate_mem extraRules decls _ e he with ⟨kv, hkv, hp'⟩
    have hk : kv.1 = b := by
      rw [hp'] at hp
      exact Option.some_inj.mp hp
    have := lookupAssoc_ne_none_of_mem (l := decls) (k := kv.1) (v := kv.2)
      (by exact hkv)
    rw [hk, hb] at this
    exact this rfl

/-- C7 witness: `b` is undeclared for the declaration `a: string`, so it is
absent from the filtered map and from every error, and the concrete
scenario query map is exactly `a = "value"`. -/
theorem ospreyQuery_allowlist_witness :
    lookupAssoc [("a", FieldDecl.mk .string true)] "b" = none
    ∧ (lookupAssoc (ospreyQueryFilter [("a", FieldDecl.mk .string true)]
          [("a", "value"), ("b", "value")]) "b" = none
      ∧ (∀ e ∈ specValidate (fun _ _ => []) [("a", FieldDecl.mk .string true)]
            (ospreyQueryFilter [("a", FieldDecl.mk .string true)]
              [("a", "value"), ("b", "value")]),
          e.dataPath ≠ some "b")
      ∧ ospreyQuery (fun _ _ => [])
          [("a", { ftype := .string, required := true })]
          [("a", "value"), ("b", "value")]
        = .ok [("a", Value.str "value")]) :=
  ⟨rfl,
    ospreyQuery_allowlist (fun _ _ => []) [("a", FieldDecl.mk .string true)]
      [("a", "value"), ("b", "value")] "b" rfl⟩

end Osprey
